import Mathlib

/-!
Verification development for the HeapAnalyzer sandbox core: the
instrumentation transformers (`instrumentJs`, `instrumentPython`), the
tracking primitives (`alloc` / `free`) they inject, the result validator
(`validateEvents`), the worker error path (`runJs` / sandbox worker), and
the run-controller state machine (`useSandbox`).

The definitions below are shallow embeddings of the TypeScript / generated
JavaScript and Python in `src/frontend/src/sandbox` and the worker files.
-/

set_option maxRecDepth 4000

namespace HeapAnalyzer

/-! ## JavaScript-like values

The result validator receives structured-clone / JSON data from the worker:
null, booleans, numbers, strings, arrays and string-keyed objects.
Numbers are modelled as rationals (exact for every value the sandbox
produces; only typing and equality of numbers matter to the claims). -/

inductive JsVal : Type where
  | null : JsVal
  | undefined : JsVal
  | bool : Bool → JsVal
  | num : ℚ → JsVal
  | str : String → JsVal
  | arr : List JsVal → JsVal
  | obj : List (String × JsVal) → JsVal

namespace JsVal

/-- `typeof v === 'object' && v` (objects and arrays pass; `null` is falsy,
primitives are not of type object). -/
def isObjectLike : JsVal → Bool
  | .arr _ => true
  | .obj _ => true
  | _ => false

/-- Property access `v[k]`: first binding of a string-keyed object;
anything else (arrays carry no string keys in the wire data) yields
`undefined`. -/
def getField : JsVal → String → JsVal
  | .obj fields, k =>
    match fields.find? (fun p => p.1 == k) with
    | some p => p.2
    | none => .undefined
  | _, _ => .undefined

/-- `typeof v === 'number'` reified as the numeric payload. -/
def asNum? : JsVal → Option ℚ
  | .num q => some q
  | _ => none

/-- `typeof v === 'string'` reified as the string payload. -/
def asStr? : JsVal → Option String
  | .str s => some s
  | _ => none

end JsVal

/-! ## MemoryEvent

Wire shape `{time:number, action:string, id?:string, size?:number,
label?:string}`; absent optional fields are `none`. -/

structure MemoryEvent : Type where
  time : ℚ
  action : String
  id : Option String := none
  size : Option ℚ := none
  label : Option String := none
deriving DecidableEq

/-! ## Result Validator

Embedding of `validateEvents` (`useSandbox.ts`); `jsRuntime.ts` and
`pythonRuntime.ts` run the identical per-entry loop inside
`validateResult`. -/

/-- One iteration of the `for (const ev of raw)` loop: `none` means the
entry is skipped (`continue`), `some e` means `e` is pushed. -/
def validateOne (ev : JsVal) : Option MemoryEvent :=
  if ev.isObjectLike = false then none
  else
    match ev.getField "time", ev.getField "action" with
    | .num t, .str a =>
      some { time := t, action := a,
             id := (ev.getField "id").asStr?,
             size := (ev.getField "size").asNum?,
             label := (ev.getField "label").asStr? }
    | _, _ => none

/-- `validateEvents(raw)`: non-arrays yield `[]`; arrays are filtered
entry by entry. -/
def validateEvents (raw : JsVal) : List MemoryEvent :=
  match raw with
  | .arr xs => xs.filterMap validateOne
  | _ => []

/-! ## Instrumented tracking primitives

Shallow embedding of the `alloc` / `free` functions injected by
`instrumentJs` (generated JavaScript) and `instrumentPython` (generated
Python).  The two surfaces share everything except how `size` is stored:
JavaScript stores the number as passed, Python stores `int(size)`
(truncation toward zero).  Arguments are typed (`label`, `id` strings,
`size` a number), so the `typeof` / `isinstance` guards on the argument
kinds are satisfied by construction; the value guards (`size <= 0`, the
event ceiling) are modelled explicitly. -/

inductive Surface : Type where
  | js : Surface
  | py : Surface
deriving DecidableEq

/-- Python `int(x)` on a number: truncation toward zero. -/
def pyInt (q : ℚ) : ℤ :=
  if 0 ≤ q then ⌊q⌋ else ⌈q⌉

/-- How the `size` argument of `alloc` is stored in the event and the
allocation table: JS keeps it as-is, Python applies `int(...)`. -/
def storeSize : Surface → ℚ → ℚ
  | .js, q => q
  | .py, q => (pyInt q : ℚ)

/-- An event as built by the instrumented program (`time` is the integer
counter `__time` / `_time[0]`). -/
structure TraceEvent : Type where
  time : ℕ
  action : String
  id : Option String := none
  size : Option ℚ := none
  label : Option String := none
deriving DecidableEq

/-- Run-scoped state of the instrumented program: the event list
(`__events` / `_events`), the allocation table (`__allocs` / `_allocs`,
an insertion-ordered map from id to `{label, size}`) and the time counter
(`__time` / `_time[0]`). -/
structure TraceState : Type where
  events : List TraceEvent := []
  allocs : List (String × String × ℚ) := []
  time : ℕ := 0
deriving DecidableEq

/-- `__allocs.has(id)` / `id in _allocs`. -/
def mapHas (m : List (String × String × ℚ)) (k : String) : Bool :=
  m.any (fun p => p.1 == k)

/-- `__allocs.set(id, v)` / `_allocs[id] = v`: overwrite in place if the
key exists, else append. -/
def mapSet (m : List (String × String × ℚ)) (k : String) (v : String × ℚ) :
    List (String × String × ℚ) :=
  if mapHas m k then m.map (fun p => if p.1 == k then (k, v.1, v.2) else p)
  else m ++ [(k, v.1, v.2)]

/-- `__allocs.delete(id)` / `del _allocs[id]`. -/
def mapDelete (m : List (String × String × ℚ)) (k : String) :
    List (String × String × ℚ) :=
  m.filter (fun p => p.1 != k)

def MAX_EVENTS : ℕ := 10000

def eventLimitMsg : String := "Event limit reached (10,000). Reduce allocations."

def allocSizeMsg : String := "alloc: size must be a positive number"

/-- `alloc(label, size)`: validate `size`, check the event ceiling, tick
the counter, synthesize `id = label + '_' + time`, record the allocation
and append an `alloc` event.  Returns the id and the updated state, or the
thrown error message. -/
def alloc (σ : Surface) (label : String) (size : ℚ) (s : TraceState) :
    Except String (String × TraceState) :=
  if size ≤ 0 then .error allocSizeMsg
  else if MAX_EVENTS ≤ s.events.length then .error eventLimitMsg
  else
    let t := s.time + 1
    let id := label ++ "_" ++ Nat.repr t
    let sz := storeSize σ size
    .ok (id,
      { events := s.events ++
          [{ time := t, action := "alloc", id := some id, size := some sz,
             label := some label }],
        allocs := mapSet s.allocs id (label, sz),
        time := t })

/-- `free(id)`: check the event ceiling, tick the counter; a live id is
removed and a `free` event appended, a dead id appends a `double_free`
event and leaves the table untouched. -/
def free (_σ : Surface) (id : String) (s : TraceState) :
    Except String TraceState :=
  if MAX_EVENTS ≤ s.events.length then .error eventLimitMsg
  else
    let t := s.time + 1
    if mapHas s.allocs id = false then
      .ok { events := s.events ++
              [{ time := t, action := "double_free", id := some id }],
            allocs := s.allocs,
            time := t }
    else
      .ok { events := s.events ++ [{ time := t, action := "free", id := some id }],
            allocs := mapDelete s.allocs id,
            time := t }

/-- One tracking call made by user code.  `free` takes an arbitrary string
(user code may pass an id returned by `alloc` or any other string). -/
inductive Op : Type where
  | alloc (label : String) (size : ℚ) : Op
  | free (id : String) : Op
deriving DecidableEq

/-- Execute one tracking call (the returned id of `alloc` is bound by user
code, which the `Op` trace abstracts over). -/
def step (σ : Surface) (s : TraceState) : Op → Except String TraceState
  | .alloc label size => (alloc σ label size s).map (fun r => r.2)
  | .free id => free σ id s

/-- Sequential execution of user code's tracking calls; the first thrown
error aborts the rest (it propagates to the surrounding catch / host). -/
def runFrom (σ : Surface) : TraceState → List Op → Except String TraceState
  | s, [] => .ok s
  | s, op :: ops =>
    match step σ s op with
    | .error e => .error e
    | .ok s' => runFrom σ s' ops

/-- A whole run of user code from the fresh per-run state. -/
def run (σ : Surface) (ops : List Op) : Except String TraceState :=
  runFrom σ {} ops

/-- The epilogue at the natural end of user code
(`if (__allocs.size > 0) { ... }` / `if _allocs:`): when allocations are
still live, tick the counter once more and append an `end` event. -/
def finish (s : TraceState) : TraceState :=
  if s.allocs.isEmpty then s
  else { s with time := s.time + 1,
                events := s.events ++ [{ time := s.time + 1, action := "end" }] }

/-! ## Decimal numerals

`alloc` synthesizes `id = label + '_' + time`, where the counter is
rendered in decimal (`Nat.repr` in the embedding, matching JS number →
string and Python f-string conversion).  Uniqueness of ids needs that the
decimal rendering is injective and never contains `'_'`. -/

/-- Decimal digit list of `n`, most significant first (recursive
specification of core's fuelled `Nat.toDigits 10`). -/
def digitsRec (n : ℕ) : List Char :=
  if _h : n < 10 then [Nat.digitChar n]
  else digitsRec (n / 10) ++ [Nat.digitChar (n % 10)]
termination_by n
decreasing_by
  exact Nat.div_lt_self (by omega) (by omega)

theorem digitChar_toNat {d : ℕ} (hd : d < 10) :
    (Nat.digitChar d).toNat = 48 + d := by
  interval_cases d <;> rfl

theorem digitChar_ne_underscore {d : ℕ} (hd : d < 10) :
    Nat.digitChar d ≠ '_' := by
  interval_cases d <;> decide

theorem mem_digitsRec_ne_underscore (n : ℕ) :
    ∀ c ∈ digitsRec n, c ≠ '_' := by
  induction n using Nat.strong_induction_on with
  | _ n ih =>
    rw [digitsRec]
    split
    · next h =>
      intro c hc
      simp only [List.mem_singleton] at hc
      subst hc
      exact digitChar_ne_underscore h
    · next _h =>
      intro c hc
      rcases List.mem_append.1 hc with h1 | h1
      · exact ih (n / 10) (Nat.div_lt_self (by omega) (by omega)) c h1
      · simp only [List.mem_singleton] at h1
        subst h1
        exact digitChar_ne_underscore (Nat.mod_lt _ (by omega))

/-- Value of a digit list, most significant first. -/
def parseDigits (cs : List Char) : ℕ :=
  cs.foldl (fun a c => 10 * a + (c.toNat - 48)) 0

theorem parseDigits_digitsRec (n : ℕ) : parseDigits (digitsRec n) = n := by
  induction n using Nat.strong_induction_on with
  | _ n ih =>
    rw [digitsRec]
    split
    · next h =>
      simp only [parseDigits, List.foldl_cons, List.foldl_nil]
      rw [digitChar_toNat h]
      omega
    · next h =>
      have hdiv := ih (n / 10) (Nat.div_lt_self (by omega) (by omega))
      simp only [parseDigits, List.foldl_append, List.foldl_cons, List.foldl_nil] at *
      rw [hdiv, digitChar_toNat (Nat.mod_lt _ (by omega))]
      omega

theorem digitsRec_injective : Function.Injective digitsRec := by
  intro a b hab
  have := parseDigits_digitsRec a
  rw [hab, parseDigits_digitsRec b] at this
  exact this.symm

theorem toDigitsCore_eq_digitsRec :
    ∀ (f n : ℕ) (acc : List Char), 0 < f → n < 10 ^ f →
      Nat.toDigitsCore 10 f n acc = digitsRec n ++ acc := by
  intro f
  induction f with
  | zero => intro n acc hf _; omega
  | succ fuel ih =>
    intro n acc _ hn
    rw [Nat.toDigitsCore]
    by_cases hz : n / 10 = 0
    · have h10 : n < 10 := by omega
      simp only [hz, if_true]
      rw [digitsRec]
      simp [h10, Nat.mod_eq_of_lt h10]
    · have h10 : ¬ n < 10 := by
        intro hlt
        exact hz (Nat.div_eq_of_lt hlt)
      have hfuel : 0 < fuel := by
        rcases Nat.eq_zero_or_pos fuel with h0 | h0
        · subst h0; norm_num at hn; omega
        · exact h0
      have hub : n / 10 < 10 ^ fuel := by
        rw [Nat.div_lt_iff_lt_mul (by omega : 0 < 10)]
        calc n < 10 ^ (fuel + 1) := hn
          _ = 10 ^ fuel * 10 := by rw [pow_succ]
      simp only [hz, if_false]
      rw [ih (n / 10) (Nat.digitChar (n % 10) :: acc) hfuel hub]
      conv_rhs => rw [digitsRec]
      simp [h10, List.append_assoc]

theorem repr_eq_digitsRec (n : ℕ) : Nat.repr n = (digitsRec n).asString := by
  have h1 : 0 < n + 1 := Nat.succ_pos n
  have h2 : n < 10 ^ (n + 1) :=
    lt_of_lt_of_le (Nat.lt_pow_self (by omega) n)
      (Nat.pow_le_pow_right (by omega) (Nat.le_succ n))
  unfold Nat.repr Nat.toDigits
  rw [toDigitsCore_eq_digitsRec (n + 1) n [] h1 h2, List.append_nil]

theorem repr_data (n : ℕ) : (Nat.repr n).data = digitsRec n := by
  rw [repr_eq_digitsRec]
  rfl

theorem repr_injective : Function.Injective Nat.repr := by
  intro a b hab
  apply digitsRec_injective
  rw [← repr_data, ← repr_data, hab]

theorem repr_no_underscore (n : ℕ) : '_' ∉ (Nat.repr n).data := by
  rw [repr_data]
  intro hmem
  exact mem_digitsRec_ne_underscore n '_' hmem rfl

/-- Splitting at the final separator: if the parts after the last `'_'`
are underscore-free, equal concatenations force equal suffixes. -/
theorem takeWhile_append_eq {p : Char → Bool} :
    ∀ (x r : List Char), (∀ c ∈ x, p c = true) → p '_' = false →
      (x ++ '_' :: r).takeWhile p = x := by
  intro x
  induction x with
  | nil => intro r _ hs; simp [List.takeWhile_cons, hs]
  | cons c cs ih =>
    intro r hx hs
    have hc : p c = true := hx c (List.mem_cons_self c cs)
    simp only [List.cons_append, List.takeWhile_cons, hc, if_true]
    rw [ih r (fun d hd => hx d (List.mem_cons_of_mem c hd)) hs]

theorem underscore_suffix_inj (a b u v : List Char)
    (hu : '_' ∉ u) (hv : '_' ∉ v)
    (h : a ++ '_' :: u = b ++ '_' :: v) : u = v := by
  have hrev : u.reverse ++ '_' :: a.reverse = v.reverse ++ '_' :: b.reverse := by
    have := congrArg List.reverse h
    simpa [List.reverse_append] using this
  have hp : ∀ (x : List Char), '_' ∉ x →
      ∀ c ∈ x.reverse, (fun d => d != '_') c = true := by
    intro x hx c hc
    have : c ∈ x := List.mem_reverse.1 hc
    have : c ≠ '_' := fun hcc => hx (hcc ▸ this)
    simpa using this
  have h1 := takeWhile_append_eq (p := fun d => d != '_') u.reverse a.reverse
    (hp u hu) (by decide)
  have h2 := takeWhile_append_eq (p := fun d => d != '_') v.reverse b.reverse
    (hp v hv) (by decide)
  have : u.reverse = v.reverse := by rw [← h1, ← h2, hrev]
  simpa using congrArg List.reverse this

/-- The synthesized id determines the time: `l₁ ++ "_" ++ repr t₁ = l₂ ++
"_" ++ repr t₂` forces `t₁ = t₂`. -/
theorem allocId_inj (l₁ l₂ : String) (t₁ t₂ : ℕ)
    (h : l₁ ++ "_" ++ Nat.repr t₁ = l₂ ++ "_" ++ Nat.repr t₂) : t₁ = t₂ := by
  apply repr_injective
  have hdata : l₁.data ++ '_' :: (Nat.repr t₁).data
      = l₂.data ++ '_' :: (Nat.repr t₂).data := by
    have := congrArg String.data h
    simpa [String.data_append] using this
  have := underscore_suffix_inj l₁.data l₂.data
    (Nat.repr t₁).data (Nat.repr t₂).data
    (repr_no_underscore t₁) (repr_no_underscore t₂) hdata
  exact String.ext this

/-! ## Run invariants -/

/-- The `alloc` event appended for `alloc(l, q)` fired at counter value `t`. -/
def allocEvent (σ : Surface) (l : String) (q : ℚ) (t : ℕ) : TraceEvent :=
  { time := t, action := "alloc", id := some (l ++ "_" ++ Nat.repr t),
    size := some (storeSize σ q), label := some l }

theorem step_alloc_ok {σ : Surface} {l : String} {q : ℚ} {s s' : TraceState}
    (h : step σ s (.alloc l q) = .ok s') :
    0 < q ∧ s.events.length < MAX_EVENTS ∧
    s' = { events := s.events ++ [allocEvent σ l q (s.time + 1)],
           allocs := mapSet s.allocs (l ++ "_" ++ Nat.repr (s.time + 1))
             (l, storeSize σ q),
           time := s.time + 1 } := by
  simp only [step, alloc] at h
  split at h
  · simp [Except.map] at h
  · split at h
    · simp [Except.map] at h
    · next hq hlen =>
      simp only [Except.map] at h
      refine ⟨not_le.1 hq, by omega, ?_⟩
      cases h
      rfl

theorem step_free_ok {σ : Surface} {id : String} {s s' : TraceState}
    (h : step σ s (.free id) = .ok s') :
    s.events.length < MAX_EVENTS ∧
    ((mapHas s.allocs id = false ∧
      s' = { events := s.events ++
               [{ time := s.time + 1, action := "double_free", id := some id }],
             allocs := s.allocs, time := s.time + 1 }) ∨
     (mapHas s.allocs id = true ∧
      s' = { events := s.events ++
               [{ time := s.time + 1, action := "free", id := some id }],
             allocs := mapDelete s.allocs id, time := s.time + 1 })) := by
  simp only [step, free] at h
  split at h
  · simp at h
  · next hlen =>
    refine ⟨by omega, ?_⟩
    split at h
    · next hdead => cases h; exact Or.inl ⟨hdead, rfl⟩
    · next hlive =>
      cases h
      exact Or.inr ⟨by simpa using hlive, rfl⟩

/-- Invariant of every state reachable by tracking calls in one run.  The
time counter equals the number of recorded events; the recorded times are
`1, 2, …, n` in order; user-phase events are never `end` events; every
`alloc` event carries `id = label + '_' + time`; and the allocation table
is empty while no event has been recorded. -/
structure Inv (s : TraceState) : Prop where
  time_eq : s.time = s.events.length
  times : s.events.map (fun e => e.time) = List.range' 1 s.events.length
  no_end : ∀ e ∈ s.events, e.action ≠ "end"
  alloc_id : ∀ e ∈ s.events, e.action = "alloc" →
    ∃ l, e.label = some l ∧ e.id = some (l ++ "_" ++ Nat.repr e.time)
  empty_allocs : s.events = [] → s.allocs = []

theorem inv_init : Inv {} := by
  refine ⟨rfl, rfl, ?_, ?_, fun _ => rfl⟩ <;> intro e he <;> exact absurd he (by simp)

theorem step_ok_inv {σ : Surface} {s s' : TraceState} {op : Op}
    (h : step σ s op = .ok s') (hs : Inv s) : Inv s' := by
  obtain ⟨h1, h2, h3, h4, h5⟩ := hs
  have hconcat : ∀ (ev : TraceEvent), ev.time = s.time + 1 →
      ((s.events ++ [ev]).map (fun e => e.time) =
        List.range' 1 (s.events ++ [ev]).length) := by
    intro ev hev
    rw [List.map_append, h2, List.length_append, List.length_singleton,
      List.range'_concat]
    simp [hev, h1, Nat.add_comm]
  cases op with
  | alloc l q =>
    obtain ⟨hq, hlen, rfl⟩ := step_alloc_ok h
    refine ⟨by simp [h1], hconcat _ rfl, ?_, ?_, by simp⟩
    · intro e he
      rcases List.mem_append.1 he with he | he
      · exact h3 e he
      · simp only [List.mem_singleton] at he
        subst he
        simp [allocEvent]
    · intro e he hact
      rcases List.mem_append.1 he with he | he
      · exact h4 e he hact
      · simp only [List.mem_singleton] at he
        subst he
        exact ⟨l, rfl, rfl⟩
  | free id =>
    obtain ⟨hlen, hcase | hcase⟩ := step_free_ok h <;> obtain ⟨hmap, rfl⟩ := hcase
    · refine ⟨by simp [h1], hconcat _ rfl, ?_, ?_, by simp⟩
      · intro e he
        rcases List.mem_append.1 he with he | he
        · exact h3 e he
        · simp only [List.mem_singleton] at he
          subst he
          simp
      · intro e he hact
        rcases List.mem_append.1 he with he | he
        · exact h4 e he hact
        · simp only [List.mem_singleton] at he
          subst he
          simp at hact
    · refine ⟨by simp [h1], hconcat _ rfl, ?_, ?_, by simp⟩
      · intro e he
        rcases List.mem_append.1 he with he | he
        · exact h3 e he
        · simp only [List.mem_singleton] at he
          subst he
          simp
      · intro e he hact
        rcases List.mem_append.1 he with he | he
        · exact h4 e he hact
        · simp only [List.mem_singleton] at he
          subst he
          simp at hact

theorem runFrom_inv {σ : Surface} :
    ∀ {ops : List Op} {s s' : TraceState},
      Inv s → runFrom σ s ops = .ok s' → Inv s' := by
  intro ops
  induction ops with
  | nil => intro s s' hs h; cases h; exact hs
  | cons op rest ih =>
    intro s s' hs h
    simp only [runFrom] at h
    split at h
    · exact absurd h (by simp)
    · next s₁ hstep => exact ih (step_ok_inv hstep hs) h

theorem run_inv {σ : Surface} {ops : List Op} {s : TraceState}
    (h : run σ ops = .ok s) : Inv s :=
  runFrom_inv inv_init h

theorem runFrom_append (σ : Surface) (s : TraceState) (l₁ l₂ : List Op) :
    runFrom σ s (l₁ ++ l₂) =
      match runFrom σ s l₁ with
      | .ok s' => runFrom σ s' l₂
      | .error e => .error e := by
  induction l₁ generalizing s with
  | nil => simp [runFrom]
  | cons op rest ih =>
    simp only [List.cons_append, runFrom]
    split
    · rfl
    · exact ih _

/-! ## Derived facts about runs -/

/-- `needle` occurs contiguously (byte-for-byte) inside `hay`. -/
def strContains (needle hay : String) : Prop :=
  needle.data <:+: hay.data

instance (needle hay : String) : Decidable (strContains needle hay) :=
  inferInstanceAs (Decidable (needle.data <:+: hay.data))

theorem step_alloc_succeeds {σ : Surface} {l : String} {q : ℚ} {s : TraceState}
    (hq : 0 < q) (hlen : s.events.length < MAX_EVENTS) :
    step σ s (.alloc l q) =
      .ok { events := s.events ++ [allocEvent σ l q (s.time + 1)],
            allocs := mapSet s.allocs (l ++ "_" ++ Nat.repr (s.time + 1))
              (l, storeSize σ q),
            time := s.time + 1 } := by
  simp [step, alloc, Except.map, not_le.2 hq, Nat.not_le.2 hlen, allocEvent]

theorem step_free_dead {σ : Surface} {id : String} {s : TraceState}
    (hdead : mapHas s.allocs id = false) (hlen : s.events.length < MAX_EVENTS) :
    step σ s (.free id) =
      .ok { events := s.events ++
              [{ time := s.time + 1, action := "double_free", id := some id }],
            allocs := s.allocs, time := s.time + 1 } := by
  simp [step, free, Nat.not_le.2 hlen, hdead]

theorem inv_last_time {s : TraceState} (hs : Inv s) (hne : s.events ≠ []) :
    ∃ le, s.events.getLast? = some le ∧ le.time = s.time := by
  obtain ⟨m, hm⟩ : ∃ m, s.events.length = m + 1 := by
    cases hl : s.events.length with
    | zero => exact absurd (List.length_eq_zero.1 hl) hne
    | succ m => exact ⟨m, rfl⟩
  have hmap := congrArg List.getLast? hs.times
  rw [List.getLast?_map, hm, List.range'_concat, List.getLast?_concat] at hmap
  cases hlast : s.events.getLast? with
  | none => rw [hlast] at hmap; simp at hmap
  | some le =>
    rw [hlast] at hmap
    simp at hmap
    refine ⟨le, rfl, ?_⟩
    have h1 : s.time = m + 1 := by rw [hs.time_eq, hm]
    omega

/-! ## Claim theorems: instrumented-run behaviour -/

/-- C1: at the natural end of user code, if the allocation table is
non-empty the epilogue appends exactly one `end` event as the final
element, with time one past the last event's time; if the table is empty
no `end` event occurs anywhere in the sequence.  Holds for both scripting
surfaces. -/
theorem end_event_iff_live_allocation (σ : Surface) (ops : List Op)
    (s : TraceState) (h : run σ ops = .ok s) :
    (s.allocs ≠ [] →
      (finish s).events = s.events ++ [{ time := s.time + 1, action := "end" }] ∧
      ((finish s).events.countP (fun e => e.action == "end")) = 1 ∧
      (finish s).events.getLast? =
        some { time := s.time + 1, action := "end" } ∧
      ∃ le, s.events.getLast? = some le ∧ s.time + 1 = le.time + 1) ∧
    (s.allocs = [] →
      (finish s).events = s.events ∧
      ∀ e ∈ (finish s).events, e.action ≠ "end") := by
  have hs := run_inv h
  constructor
  · intro hall
    have hemp : s.allocs.isEmpty = false := by
      cases hq : s.allocs.isEmpty
      · rfl
      · exact absurd (List.isEmpty_iff.1 hq) hall
    have hne : s.events ≠ [] := fun hnil => hall (hs.empty_allocs hnil)
    obtain ⟨le, hle, hlet⟩ := inv_last_time hs hne
    have hev : (finish s).events =
        s.events ++ [{ time := s.time + 1, action := "end" }] := by
      simp [finish, hemp]
    refine ⟨hev, ?_, ?_, le, hle, by rw [hlet]⟩
    · rw [hev, List.countP_append]
      have hzero : s.events.countP (fun e => e.action == "end") = 0 := by
        rw [List.countP_eq_zero]
        intro e he
        simpa using hs.no_end e he
      rw [hzero]
      simp
    · rw [hev, List.getLast?_concat]
  · intro hall
    have hemp : s.allocs.isEmpty = true := by simp [hall]
    have hev : (finish s).events = s.events := by simp [finish, hemp]
    exact ⟨hev, fun e he => hs.no_end e (hev ▸ he)⟩

/-- C2: every successful tracking call advances the time counter by
exactly 1, recorded times are `1, 2, …, n` in order, and the ids
synthesized by `alloc` are pairwise distinct within a run even for
repeated labels. -/
theorem time_monotone_and_ids_unique (σ : Surface) (ops : List Op)
    (s : TraceState) (h : run σ ops = .ok s) :
    (∀ (s₁ : TraceState) (op : Op) (s₂ : TraceState),
        step σ s₁ op = .ok s₂ → s₂.time = s₁.time + 1) ∧
    s.events.map (fun e => e.time) = List.range' 1 s.events.length ∧
    ((s.events.filter (fun e => e.action == "alloc")).map
      (fun e => e.id)).Nodup := by
  have hs := run_inv h
  refine ⟨?_, hs.times, ?_⟩
  · intro s₁ op s₂ hstep
    cases op with
    | alloc l q =>
      obtain ⟨-, -, rfl⟩ := step_alloc_ok hstep
      rfl
    | free id =>
      obtain ⟨-, hcase | hcase⟩ := step_free_ok hstep <;>
        obtain ⟨-, rfl⟩ := hcase <;> rfl
  · have hnd : (s.events.map (fun e => e.time)).Nodup := by
      rw [hs.times]; exact List.nodup_range' 1 _
    have hinj := List.inj_on_of_nodup_map hnd
    have hfil : (s.events.filter (fun e => e.action == "alloc")).Nodup :=
      (hnd.of_map).filter _
    refine hfil.map_on ?_
    intro x hx y hy hxy
    have hx' := List.mem_filter.1 hx
    have hy' := List.mem_filter.1 hy
    obtain ⟨lx, hlx, hidx⟩ := hs.alloc_id x hx'.1 (by simpa using hx'.2)
    obtain ⟨ly, hly, hidy⟩ := hs.alloc_id y hy'.1 (by simpa using hy'.2)
    rw [hidx, hidy] at hxy
    exact hinj hx'.1 hy'.1
      (allocId_inj lx ly x.time y.time (Option.some.inj hxy))

/-! ## Reaching the event ceiling -/

theorem mapHas_mapSet_of_ne {m : List (String × String × ℚ)} {x k : String}
    {v : String × ℚ} (hm : mapHas m x = false) (hk : k ≠ x) :
    mapHas (mapSet m k v) x = false := by
  unfold mapSet
  split
  · unfold mapHas at *
    simp only [List.any_eq_false] at *
    intro p hp
    obtain ⟨q, hq, rfl⟩ := List.mem_map.1 hp
    split
    · simpa using hk
    · simpa using hm q hq
  · unfold mapHas at *
    rw [List.any_append, hm]
    simp only [Bool.false_or, List.any_cons, List.any_nil, Bool.or_false]
    simpa using hk

theorem synthesized_key_ne_nope (l : String) (t : ℕ)
    (hl : l.data.head? = some 'a') : (l ++ "_" ++ Nat.repr t) ≠ "nope" := by
  intro h
  have hd := congrArg String.data h
  rw [String.data_append, String.data_append] at hd
  cases hl' : l.data with
  | nil => rw [hl'] at hl; simp at hl
  | cons c cs =>
    rw [hl'] at hl hd
    simp only [List.head?] at hl
    have hc : c = 'a' := by injection hl
    subst hc
    have hcontra := congrArg List.head? hd
    simp at hcontra

theorem runFrom_replicate_alloc (σ : Surface) :
    ∀ (n : ℕ) (s : TraceState), s.events.length + n ≤ MAX_EVENTS →
      mapHas s.allocs "nope" = false →
      ∃ s', runFrom σ s (List.replicate n (Op.alloc "a" 1)) = .ok s' ∧
        s'.events.length = s.events.length + n ∧
        mapHas s'.allocs "nope" = false := by
  intro n
  induction n with
  | zero =>
    intro s hlen hmap
    refine ⟨s, rfl, ?_, hmap⟩
    simp
  | succ m ih =>
    intro s hlen hmap
    rw [List.replicate_succ]
    have hstep := step_alloc_succeeds (σ := σ) (l := "a") (q := 1) (s := s)
      one_pos (by omega)
    have hkey : ("a" ++ "_" ++ Nat.repr (s.time + 1)) ≠ "nope" :=
      synthesized_key_ne_nope "a" (s.time + 1) rfl
    obtain ⟨s', hrun, hlen', hmap'⟩ := ih
      { events := s.events ++ [allocEvent σ "a" 1 (s.time + 1)],
        allocs := mapSet s.allocs ("a" ++ "_" ++ Nat.repr (s.time + 1))
          ("a", storeSize σ 1),
        time := s.time + 1 }
      (by simpa using by omega)
      (mapHas_mapSet_of_ne hmap hkey)
    refine ⟨s', ?_, ?_, hmap'⟩
    · rw [runFrom, hstep]
      exact hrun
    · rw [hlen']
      simp only [List.length_append, List.length_singleton]
      omega

theorem step_free_at_limit {σ : Surface} {s : TraceState} {id : String}
    (h : MAX_EVENTS ≤ s.events.length) :
    step σ s (.free id) = .error eventLimitMsg := by
  simp [step, free, h]

theorem step_alloc_at_limit {σ : Surface} {s : TraceState} {l : String} {q : ℚ}
    (h : MAX_EVENTS ≤ s.events.length) (hq : 0 < q) :
    step σ s (.alloc l q) = .error eventLimitMsg := by
  simp [step, alloc, Except.map, not_le.2 hq, h]

theorem runFrom_append_ok {σ : Surface} {s s₁ : TraceState} {l₁ : List Op}
    (h : runFrom σ s l₁ = .ok s₁) (l₂ : List Op) :
    runFrom σ s (l₁ ++ l₂) = runFrom σ s₁ l₂ := by
  rw [runFrom_append, h]

theorem run_singleton (σ : Surface) (op : Op) :
    run σ [op] = step σ {} op := by
  unfold run runFrom
  cases h : step σ {} op <;> simp [runFrom, h]

/-- C3 (amended): a tracking call made while the event list holds 10,000
events fails with the event-limit error and the run terminates in the
error outcome — provided the call's own argument validation passes
(an `alloc` whose `size` fails validation reports its own message
instead, see the counterexample). -/
theorem event_limit_stops_tracking :
    strContains "Event limit reached" eventLimitMsg ∧
    (∀ (σ : Surface) (s : TraceState) (op : Op),
        MAX_EVENTS ≤ s.events.length →
        (∀ l q, op = Op.alloc l q → 0 < q) →
        step σ s op = .error eventLimitMsg) ∧
    (∀ (σ : Surface) (ops₁ : List Op) (op : Op) (ops₂ : List Op)
        (s : TraceState),
        run σ ops₁ = .ok s → MAX_EVENTS ≤ s.events.length →
        (∀ l q, op = Op.alloc l q → 0 < q) →
        run σ (ops₁ ++ op :: ops₂) = .error eventLimitMsg) := by
  have hstep : ∀ (σ : Surface) (s : TraceState) (op : Op),
      MAX_EVENTS ≤ s.events.length →
      (∀ l q, op = Op.alloc l q → 0 < q) →
      step σ s op = .error eventLimitMsg := by
    intro σ s op hlen hvalid
    cases op with
    | alloc l q => exact step_alloc_at_limit hlen (hvalid l q rfl)
    | free id => exact step_free_at_limit hlen
  refine ⟨by decide, hstep, ?_⟩
  intro σ ops₁ op ops₂ s hrun hlen hvalid
  have hrun' : runFrom σ {} ops₁ = .ok s := hrun
  show runFrom σ {} (ops₁ ++ op :: ops₂) = .error eventLimitMsg
  rw [runFrom_append_ok hrun', runFrom, hstep σ s op hlen hvalid]

/-- C3 counterexample: with the event list full, an `alloc` whose `size`
fails its own validation reports the size message, which does not contain
"Event limit reached" — the run still ends in error, but not with the
limit message the claim requires for every tracking call. -/
theorem c3_counterexample :
    run Surface.js
        (List.replicate 10000 (Op.alloc "a" 1) ++ [Op.alloc "b" 0]) =
      .error allocSizeMsg ∧
    ¬ strContains "Event limit reached" allocSizeMsg := by
  obtain ⟨s', hrun, hlen, -⟩ := runFrom_replicate_alloc Surface.js 10000 {}
    (by simp [MAX_EVENTS]) rfl
  constructor
  · show runFrom Surface.js {}
        (List.replicate 10000 (Op.alloc "a" 1) ++ [Op.alloc "b" 0]) = _
    rw [runFrom_append_ok hrun, runFrom]
    have hstep : step Surface.js s' (Op.alloc "b" 0) = .error allocSizeMsg := by
      simp [step, alloc, Except.map]
    rw [hstep]
  · decide

/-- C3 witness: at a full event list, a well-formed `free` call fails with
the event-limit message. -/
theorem c3_witness :
    MAX_EVENTS ≤ (TraceState.mk (List.replicate 10000
        { time := 1, action := "alloc" }) [] 0).events.length ∧
    step Surface.js (TraceState.mk (List.replicate 10000
        { time := 1, action := "alloc" }) [] 0) (Op.free "x") =
      .error eventLimitMsg :=
  have hfull : MAX_EVENTS ≤ (TraceState.mk (List.replicate 10000
      ({ time := 1, action := "alloc" } : TraceEvent)) [] 0).events.length := by
    show MAX_EVENTS ≤ (List.replicate 10000
      ({ time := 1, action := "alloc" } : TraceEvent)).length
    rw [List.length_replicate]
    exact le_refl _
  ⟨hfull,
    event_limit_stops_tracking.2.1 Surface.js _ (Op.free "x")
      hfull (fun l q h => Op.noConfusion h)⟩

/-- C4 (amended): below the 10,000-event ceiling, `free` on an id that is
not currently live appends a `double_free` event carrying that id, leaves
the allocation table unchanged, raises no error, and execution continues
with the remaining tracking calls from the updated state.  (At the
ceiling the call fails with the event-limit error instead, see the
counterexample.) -/
theorem double_free_records_and_continues (σ : Surface) (s : TraceState)
    (id : String) (hdead : mapHas s.allocs id = false)
    (hlen : s.events.length < MAX_EVENTS) :
    step σ s (.free id) =
      .ok { events := s.events ++
              [{ time := s.time + 1, action := "double_free", id := some id }],
            allocs := s.allocs, time := s.time + 1 } ∧
    ∀ ops, runFrom σ s (Op.free id :: ops) =
      runFrom σ
        { events := s.events ++
            [{ time := s.time + 1, action := "double_free", id := some id }],
          allocs := s.allocs, time := s.time + 1 } ops := by
  have h := step_free_dead (σ := σ) hdead hlen
  exact ⟨h, fun ops => by rw [runFrom, h]⟩

/-- C4 witness: freeing a never-allocated id from the fresh state records
a `double_free` and keeps the (empty) table. -/
theorem c4_witness :
    mapHas (TraceState.allocs {}) "ghost" = false ∧
    (TraceState.events {}).length < MAX_EVENTS ∧
    step Surface.py {} (Op.free "ghost") =
      .ok { events := [{ time := 1, action := "double_free",
                         id := some "ghost" }],
            allocs := [], time := 1 } :=
  ⟨rfl, by decide,
    (double_free_records_and_continues Surface.py {} "ghost" rfl
      (by decide)).1⟩

/-- C4 counterexample: once the event list is full, `free` on an id that
is not currently live ("nope" was never allocated) raises the event-limit
error instead of appending a `double_free` event. -/
theorem c4_counterexample :
    run Surface.js
        (List.replicate 10000 (Op.alloc "a" 1) ++ [Op.free "nope"]) =
      .error eventLimitMsg ∧
    (match run Surface.js (List.replicate 10000 (Op.alloc "a" 1)) with
     | .ok s => mapHas s.allocs "nope" = false
     | .error _ => False) := by
  obtain ⟨s', hrun, hlen, hmap⟩ := runFrom_replicate_alloc Surface.js 10000 {}
    (by simp [MAX_EVENTS]) rfl
  have hrun' : run Surface.js (List.replicate 10000 (Op.alloc "a" 1)) = .ok s' :=
    hrun
  have hfull : MAX_EVENTS ≤ s'.events.length := by
    rw [hlen]
    exact le_refl _
  constructor
  · show runFrom Surface.js {}
        (List.replicate 10000 (Op.alloc "a" 1) ++ [Op.free "nope"]) = _
    rw [runFrom_append_ok hrun, runFrom, step_free_at_limit hfull]
  · rw [hrun']
    exact hmap

/-! ## Size storage on the two surfaces (C9) -/

/-- C9 (amended): a positive `size` — fractional or not — makes `alloc`
succeed on both surfaces, but the stored value differs: the JavaScript
transformer records `size` unchanged, while the Python transformer
records `int(size)` (truncation toward zero), both in the event and in
the allocation table. -/
theorem alloc_size_storage (l : String) (q : ℚ) (s : TraceState)
    (hq : 0 < q) (hlen : s.events.length < MAX_EVENTS) :
    step Surface.js s (.alloc l q) =
      .ok { events := s.events ++ [allocEvent Surface.js l q (s.time + 1)],
            allocs := mapSet s.allocs (l ++ "_" ++ Nat.repr (s.time + 1))
              (l, q),
            time := s.time + 1 } ∧
    (allocEvent Surface.js l q (s.time + 1)).size = some q ∧
    step Surface.py s (.alloc l q) =
      .ok { events := s.events ++ [allocEvent Surface.py l q (s.time + 1)],
            allocs := mapSet s.allocs (l ++ "_" ++ Nat.repr (s.time + 1))
              (l, ((pyInt q : ℤ) : ℚ)),
            time := s.time + 1 } ∧
    (allocEvent Surface.py l q (s.time + 1)).size = some ((pyInt q : ℤ) : ℚ) :=
  ⟨step_alloc_succeeds hq hlen, rfl, step_alloc_succeeds hq hlen, rfl⟩

/-- C9 counterexample: `alloc("x", 10.5)` on the Python surface records
`size = 10`, not the given `10.5` — the two transformers do not store a
fractional size identically. -/
theorem c9_counterexample :
    run Surface.py [Op.alloc "x" (21/2)] =
      .ok { events := [{ time := 1, action := "alloc", id := some "x_1",
                         size := some 10, label := some "x" }],
            allocs := [("x_1", "x", 10)], time := 1 } ∧
    some ((21 : ℚ)/2) ≠ some (10 : ℚ) := by
  constructor
  · rw [run_singleton,
      step_alloc_succeeds (by norm_num) (by norm_num [MAX_EVENTS])]
    have hsz : storeSize Surface.py (21/2) = (10 : ℚ) := by
      norm_num [storeSize, pyInt]
    simp [allocEvent, mapSet, mapHas, hsz]
    rfl
  · norm_num

/-- C9 witness: a concrete state for the amended theorem — the fresh
state, label "x", size 10.5. -/
theorem c9_witness :
    (0 : ℚ) < 21/2 ∧
    (TraceState.events {}).length < MAX_EVENTS ∧
    (allocEvent Surface.js "x" (21/2) 1).size = some ((21 : ℚ)/2) ∧
    (allocEvent Surface.py "x" (21/2) 1).size = some ((10 : ℤ) : ℚ) := by
  have h := alloc_size_storage "x" (21/2) {} (by norm_num)
    (by norm_num [MAX_EVENTS])
  refine ⟨by norm_num, by norm_num [MAX_EVENTS], h.2.1, ?_⟩
  have h4 := h.2.2.2
  have hint : pyInt (21/2) = 10 := by norm_num [pyInt]
  rw [hint] at h4
  exact h4

/-! ## Concrete run states for witnesses -/

def c1State : TraceState :=
  { events := [{ time := 1, action := "alloc", id := some "buf_1",
                 size := some 1024, label := some "buf" }],
    allocs := [("buf_1", "buf", 1024)], time := 1 }

/-- C1 witness: `alloc("buf", 1024)` alone leaks, and the epilogue
appends the `end` event at time 2. -/
theorem c1_witness :
    run Surface.js [Op.alloc "buf" 1024] = .ok c1State ∧
    c1State.allocs ≠ [] ∧
    (finish c1State).events =
      c1State.events ++ [{ time := 2, action := "end" }] :=
  ⟨rfl, by decide,
    ((end_event_iff_live_allocation Surface.js [Op.alloc "buf" 1024]
      c1State rfl).1 (by decide)).1⟩

def c2State : TraceState :=
  { events := [{ time := 1, action := "alloc", id := some "buf_1",
                 size := some 64, label := some "buf" },
               { time := 2, action := "alloc", id := some "buf_2",
                 size := some 64, label := some "buf" }],
    allocs := [("buf_1", "buf", 64), ("buf_2", "buf", 64)], time := 2 }

/-- C2 witness: two `alloc`s with the same label get times 1, 2 and
distinct ids. -/
theorem c2_witness :
    run Surface.js [Op.alloc "buf" 64, Op.alloc "buf" 64] = .ok c2State ∧
    c2State.events.map (fun e => e.time) =
      List.range' 1 c2State.events.length ∧
    ((c2State.events.filter (fun e => e.action == "alloc")).map
      (fun e => e.id)).Nodup :=
  ⟨rfl,
    (time_monotone_and_ids_unique Surface.js
      [Op.alloc "buf" 64, Op.alloc "buf" 64] c2State rfl).2.1,
    (time_monotone_and_ids_unique Surface.js
      [Op.alloc "buf" 64, Op.alloc "buf" 64] c2State rfl).2.2⟩

/-! ## Claim theorems: Result Validator -/

/-- C5: the validator maps non-arrays to the empty list; arrays are
filtered entry by entry in input order (`filterMap` keeps relative order
and distributes over append); an entry is kept exactly when it is a
non-null object (`ev && typeof ev === 'object'`; in the wire data only
string-keyed objects can carry the required fields) with a numeric `time`
and a string `action`; and a kept entry is exactly the record of the five
known fields, each optional field present only when well-typed (a
wrong-typed optional field is stripped, not the entry). -/
theorem validator_contract :
    (∀ raw : JsVal, (∀ xs, raw ≠ .arr xs) → validateEvents raw = []) ∧
    (∀ xs, validateEvents (.arr xs) = xs.filterMap validateOne) ∧
    (∀ xs ys, validateEvents (.arr (xs ++ ys)) =
        validateEvents (.arr xs) ++ validateEvents (.arr ys)) ∧
    (∀ ev : JsVal, (validateOne ev).isSome ↔
        (ev.isObjectLike = true ∧ (∃ t, ev.getField "time" = .num t) ∧
         (∃ a, ev.getField "action" = .str a))) ∧
    (∀ (ev : JsVal) (e : MemoryEvent), validateOne ev = some e →
        ev.getField "time" = .num e.time ∧
        ev.getField "action" = .str e.action ∧
        e.id = (ev.getField "id").asStr? ∧
        e.size = (ev.getField "size").asNum? ∧
        e.label = (ev.getField "label").asStr?) := by
  refine ⟨?_, ?_, ?_, ?_, ?_⟩
  · intro raw h
    cases raw with
    | arr xs => exact absurd rfl (h xs)
    | null => rfl
    | undefined => rfl
    | bool b => rfl
    | num q => rfl
    | str s => rfl
    | obj fields => rfl
  · intro _xs; rfl
  · intro xs ys
    show (xs ++ ys).filterMap validateOne = _
    rw [List.filterMap_append]
    rfl
  · intro ev
    constructor
    · intro h
      unfold validateOne at h
      split at h
      · simp at h
      · next hobj =>
        split at h
        · next t a ht ha =>
          refine ⟨?_, ⟨t, ht⟩, ⟨a, ha⟩⟩
          cases hb : ev.isObjectLike
          · exact absurd hb hobj
          · rfl
        · simp at h
    · rintro ⟨hobj, ⟨t, ht⟩, ⟨a, ha⟩⟩
      unfold validateOne
      rw [if_neg (by simp [hobj]), ht, ha]
      simp
  · intro ev e h
    unfold validateOne at h
    split at h
    · simp at h
    · split at h
      · next t a ht ha =>
        cases h
        exact ⟨ht, ha, rfl, rfl, rfl⟩
      · simp at h

/-- C5 witness: `null` input yields the empty list; a kept entry with a
wrong-typed optional `id` (a number) is kept with `id` stripped. -/
theorem c5_witness :
    validateEvents .null = [] ∧
    validateOne (.obj [("time", .num 3), ("action", .str "alloc"),
        ("id", .num 7), ("label", .str "x")]) =
      some { time := 3, action := "alloc", id := none, size := none,
             label := some "x" } :=
  ⟨validator_contract.1 .null (fun _xs h => JsVal.noConfusion h), rfl⟩

/-- C10: the validator never inspects the value of `action` beyond its
type — any string is copied verbatim, so validated lists may contain
actions outside the four known values. -/
theorem validator_keeps_unknown_actions :
    (∀ (t : ℚ) (a : String),
        validateOne (.obj [("time", .num t), ("action", .str a)]) =
          some { time := t, action := a }) ∧
    validateEvents
        (.arr [.obj [("time", .num 1), ("action", .str "bogus")]]) =
      [{ time := 1, action := "bogus" }] ∧
    "bogus" ∉ (["alloc", "free", "double_free", "end"] : List String) := by
  refine ⟨fun t a => rfl, rfl, by decide⟩

/-! ## Instrumentation Transformers as text (C7)

The exact program text produced by `instrumentJs` / `instrumentPython`:
a fixed prefix, the user source (verbatim for JS; indented line by line
for Python), and a fixed suffix.  The apostrophes and braces of the
generated code are written with character escapes. -/

/-- Text of the JS wrapper before the spliced user code. -/
def jsPrefix : String :=
  "\n" ++
  "\x27use strict\x27;\n" ++
  "const __events = [];\n" ++
  "const __allocs = new Map();\n" ++
  "const __stdout = [];\n" ++
  "const __stderr = [];\n" ++
  "let __time = 0;\n" ++
  "const MAX_EVENTS = 10000;\n" ++
  "\n" ++
  "function alloc(label, size) \x7b\n" ++
  "  if (typeof label !== \x27string\x27) throw new Error(\x27alloc: label must be a string\x27);\n" ++
  "  if (typeof size !== \x27number\x27 || size <= 0) throw new Error(\x27alloc: size must be a positive number\x27);\n" ++
  "  if (__events.length >= MAX_EVENTS) throw new Error(\x27Event limit reached (10,000). Reduce allocations.\x27);\n" ++
  "  __time++;\n" ++
  "  const id = label + \x27_\x27 + __time;\n" ++
  "  __allocs.set(id, \x7b label, size \x7d);\n" ++
  "  __events.push(\x7b time: __time, action: \x27alloc\x27, id, size, label \x7d);\n" ++
  "  return id;\n" ++
  "\x7d\n" ++
  "\n" ++
  "function free(id) \x7b\n" ++
  "  if (typeof id !== \x27string\x27) throw new Error(\x27free: id must be a string returned by alloc()\x27);\n" ++
  "  if (__events.length >= MAX_EVENTS) throw new Error(\x27Event limit reached (10,000). Reduce allocations.\x27);\n" ++
  "  __time++;\n" ++
  "  if (!__allocs.has(id)) \x7b\n" ++
  "    __events.push(\x7b time: __time, action: \x27double_free\x27, id \x7d);\n" ++
  "    return;\n" ++
  "  \x7d\n" ++
  "  __allocs.delete(id);\n" ++
  "  __events.push(\x7b time: __time, action: \x27free\x27, id \x7d);\n" ++
  "\x7d\n" ++
  "\n" ++
  "function print(...args) \x7b\n" ++
  "  __stdout.push(args.map(String).join(\x27 \x27));\n" ++
  "\x7d\n" ++
  "\n" ++
  "function log(...args) \x7b\n" ++
  "  __stdout.push(args.map(String).join(\x27 \x27));\n" ++
  "\x7d\n" ++
  "\n" ++
  "const console = \x7b\n" ++
  "  log: (...args) => __stdout.push(args.map(String).join(\x27 \x27)),\n" ++
  "  error: (...args) => __stderr.push(args.map(String).join(\x27 \x27)),\n" ++
  "  warn: (...args) => __stderr.push(args.map(String).join(\x27 \x27)),\n" ++
  "\x7d;\n" ++
  "\n" ++
  "try \x7b\n" ++
  "  // --- User code ---\n" ++
  "  "

/-- Text of the JS wrapper after the spliced user code. -/
def jsSuffix : String :=
  "\n" ++
  "  // --- End user code ---\n" ++
  "\n" ++
  "  // Mark remaining allocations as leaked\n" ++
  "  if (__allocs.size > 0) \x7b\n" ++
  "    __time++;\n" ++
  "    __events.push(\x7b time: __time, action: \x27end\x27 \x7d);\n" ++
  "  \x7d\n" ++
  "\n" ++
  "  self.postMessage(\x7b\n" ++
  "    type: \x27result\x27,\n" ++
  "    events: __events,\n" ++
  "    stdout: __stdout.join(\x27\\n\x27),\n" ++
  "    stderr: __stderr.join(\x27\\n\x27),\n" ++
  "  \x7d);\n" ++
  "\x7d catch (err) \x7b\n" ++
  "  self.postMessage(\x7b\n" ++
  "    type: \x27error\x27,\n" ++
  "    error: err instanceof Error ? err.message : String(err),\n" ++
  "    stdout: __stdout.join(\x27\\n\x27),\n" ++
  "    stderr: __stderr.join(\x27\\n\x27),\n" ++
  "  \x7d);\n" ++
  "\x7d\n"

/-- Text of the Python wrapper before the indented user code. -/
def pyPrefix : String :=
  "\n" ++
  "import json as _json\n" ++
  "import io as _io\n" ++
  "import sys as _sys\n" ++
  "\n" ++
  "_events = []\n" ++
  "_allocs = \x7b\x7d\n" ++
  "_time = [0]\n" ++
  "_MAX_EVENTS = 10000\n" ++
  "_stdout_capture = _io.StringIO()\n" ++
  "_stderr_capture = _io.StringIO()\n" ++
  "_sys.stdout = _stdout_capture\n" ++
  "_sys.stderr = _stderr_capture\n" ++
  "\n" ++
  "def alloc(label: str, size: int) -> str:\n" ++
  "    if not isinstance(label, str):\n" ++
  "        raise TypeError(\"alloc: label must be a string\")\n" ++
  "    if not isinstance(size, (int, float)) or size <= 0:\n" ++
  "        raise ValueError(\"alloc: size must be a positive number\")\n" ++
  "    if len(_events) >= _MAX_EVENTS:\n" ++
  "        raise RuntimeError(\"Event limit reached (10,000). Reduce allocations.\")\n" ++
  "    _time[0] += 1\n" ++
  "    id = f\"\x7blabel\x7d_\x7b_time[0]\x7d\"\n" ++
  "    _allocs[id] = \x7b\"label\": label, \"size\": int(size)\x7d\n" ++
  "    _events.append(\x7b\"time\": _time[0], \"action\": \"alloc\", \"id\": id, \"size\": int(size), \"label\": label\x7d)\n" ++
  "    return id\n" ++
  "\n" ++
  "def free(id: str) -> None:\n" ++
  "    if not isinstance(id, str):\n" ++
  "        raise TypeError(\"free: id must be a string returned by alloc()\")\n" ++
  "    if len(_events) >= _MAX_EVENTS:\n" ++
  "        raise RuntimeError(\"Event limit reached (10,000). Reduce allocations.\")\n" ++
  "    _time[0] += 1\n" ++
  "    if id not in _allocs:\n" ++
  "        _events.append(\x7b\"time\": _time[0], \"action\": \"double_free\", \"id\": id\x7d)\n" ++
  "        return\n" ++
  "    del _allocs[id]\n" ++
  "    _events.append(\x7b\"time\": _time[0], \"action\": \"free\", \"id\": id\x7d)\n" ++
  "\n" ++
  "def _run_user_code():\n"

/-- Text of the Python wrapper after the indented user code. -/
def pySuffix : String :=
  "\n" ++
  "\n" ++
  "_run_user_code()\n" ++
  "\n" ++
  "if _allocs:\n" ++
  "    _time[0] += 1\n" ++
  "    _events.append(\x7b\"time\": _time[0], \"action\": \"end\"\x7d)\n" ++
  "\n" ++
  "_json.dumps(\x7b\"events\": _events, \"stdout\": _stdout_capture.getvalue(), \"stderr\": _stderr_capture.getvalue()\x7d)\n"

/-- `instrumentJs(userCode)`: the template literal with the user code
spliced verbatim between the markers. -/
def instrumentJs (userCode : String) : String :=
  jsPrefix ++ userCode ++ jsSuffix

/-- `userCode.split('\n')` of the Python transformer, modelled on the
character list (JS `split` on a one-character separator). -/
def jsSplitLines (u : String) : List String :=
  (u.data.splitOn '\n').map List.asString

/-- `instrumentPython(userCode)`: each user line indented by four spaces,
re-joined and spliced into the wrapper. -/
def instrumentPython (userCode : String) : String :=
  pyPrefix ++
    String.intercalate "\n"
      ((jsSplitLines userCode).map (fun line => "    " ++ line)) ++
    pySuffix

/-- C7 (amended): both transformers are textually deterministic; the user
source appears byte-for-byte as a contiguous substring of the JS
transformer's output (it is spliced verbatim between a fixed prefix and
suffix); the Python transformer instead embeds the user source with every
line prefixed by four spaces, so byte-for-byte containment of the source
is not guaranteed there — it fails for the two-line source
`"a = 1\nb = 2"` (see the counterexample). -/
theorem transformer_determinism_and_embedding :
    (∀ u₁ u₂ : String, u₁ = u₂ →
        instrumentJs u₁ = instrumentJs u₂ ∧
        instrumentPython u₁ = instrumentPython u₂) ∧
    (∀ u : String, instrumentJs u = jsPrefix ++ u ++ jsSuffix) ∧
    (∀ u : String, strContains u (instrumentJs u)) ∧
    (∀ u : String, instrumentPython u =
        pyPrefix ++
          String.intercalate "\n"
            ((jsSplitLines u).map (fun line => "    " ++ line)) ++
          pySuffix) := by
  refine ⟨fun u₁ u₂ h => by rw [h]; exact ⟨rfl, rfl⟩, fun u => rfl, ?_, fun u => rfl⟩
  intro u
  show u.data <:+: (jsPrefix ++ u ++ jsSuffix).data
  refine ⟨jsPrefix.data, jsSuffix.data, ?_⟩
  rw [String.data_append, String.data_append]

/-- An occurrence of `u` in `a ++ b` either lies inside `a` or starts in
the last `u.length - 1` positions of `a` (so it survives dropping the rest
of `a`). -/
theorem infix_append_split {α : Type} (u a b : List α) (h : u <:+: a ++ b) :
    u <:+: a ∨ u <:+: (a.drop (a.length + 1 - u.length) ++ b) := by
  rcases eq_or_ne u [] with rfl | hu
  · exact Or.inl List.nil_infix
  have hu1 : 1 ≤ u.length := List.length_pos.2 hu
  obtain ⟨s, t, hst⟩ := h
  by_cases hc : s.length + u.length ≤ a.length
  · left
    have htake := congrArg (List.take a.length) hst
    rw [List.take_left, List.take_append_eq_append_take,
      List.take_append_eq_append_take,
      List.take_of_length_le (by omega : s.length ≤ a.length),
      List.take_of_length_le
        (by omega : u.length ≤ a.length - s.length)] at htake
    exact ⟨s, t.take (a.length - (s ++ u).length), htake⟩
  · right
    have hm1 : a.length + 1 - u.length ≤ s.length := by omega
    have hm2 : a.length + 1 - u.length ≤ a.length := by omega
    have hm3 : a.length + 1 - u.length ≤ (s ++ u).length := by
      rw [List.length_append]; omega
    have hdrop := congrArg (List.drop (a.length + 1 - u.length)) hst
    rw [List.drop_append_eq_append_drop, List.drop_append_eq_append_drop,
      List.drop_append_eq_append_drop, Nat.sub_eq_zero_of_le hm1,
      Nat.sub_eq_zero_of_le hm2, Nat.sub_eq_zero_of_le hm3, List.drop_zero,
      List.drop_zero] at hdrop
    exact ⟨s.drop (a.length + 1 - u.length), t, hdrop⟩

/-- Scan a haystack given as a list of chunks, keeping a carry of the last
`u.length - 1` characters between chunks, and report that `u` occurs in no
window.  Evaluates with bounded recursion depth even on large haystacks. -/
def chunkedNoInfix (u : List Char) : List Char → List (List Char) → Bool
  | carry, [] => ! decide (u <:+: carry)
  | carry, c :: cs =>
    (! decide (u <:+: (carry ++ c))) &&
    chunkedNoInfix u ((carry ++ c).drop ((carry ++ c).length + 1 - u.length)) cs

def joinChunks (cs : List (List Char)) : List Char :=
  cs.foldr (· ++ ·) []

theorem chunkedNoInfix_sound (u : List Char) :
    ∀ (chunks : List (List Char)) (carry : List Char),
      chunkedNoInfix u carry chunks = true →
      ¬ u <:+: carry ++ joinChunks chunks := by
  intro chunks
  induction chunks with
  | nil =>
    intro carry h hmem
    rw [chunkedNoInfix, Bool.not_eq_true', decide_eq_false_iff_not] at h
    rw [joinChunks, List.foldr_nil, List.append_nil] at hmem
    exact h hmem
  | cons c cs ih =>
    intro carry h hmem
    rw [chunkedNoInfix, Bool.and_eq_true, Bool.not_eq_true',
      decide_eq_false_iff_not] at h
    have hjoin : joinChunks (c :: cs) = c ++ joinChunks cs := rfl
    rw [hjoin, ← List.append_assoc] at hmem
    rcases infix_append_split u (carry ++ c) (joinChunks cs) hmem with hL | hR
    · exact h.1 hL
    · exact ih _ h.2 hR

/-- The output of `instrumentPython "a = 1\nb = 2"` cut into per-line
chunks (prefix lines, the indented user text, suffix lines). -/
def pyChunks : List (List Char) :=
  ["\n".data,
   "import json as _json\n".data,
   "import io as _io\n".data,
   "import sys as _sys\n".data,
   "\n".data,
   "_events = []\n".data,
   "_allocs = \x7b\x7d\n".data,
   "_time = [0]\n".data,
   "_MAX_EVENTS = 10000\n".data,
   "_stdout_capture = _io.StringIO()\n".data,
   "_stderr_capture = _io.StringIO()\n".data,
   "_sys.stdout = _stdout_capture\n".data,
   "_sys.stderr = _stderr_capture\n".data,
   "\n".data,
   "def alloc(label: str, size: int) -> str:\n".data,
   "    if not isinstance(label, str):\n".data,
   "        raise TypeError(\"alloc: label must be a string\")\n".data,
   "    if not isinstance(size, (int, float)) or size <= 0:\n".data,
   "        raise ValueError(\"alloc: size must be a positive number\")\n".data,
   "    if len(_events) >= _MAX_EVENTS:\n".data,
   "        raise RuntimeError(\"Event limit reached (10,000). Reduce allocations.\")\n".data,
   "    _time[0] += 1\n".data,
   "    id = f\"\x7blabel\x7d_\x7b_time[0]\x7d\"\n".data,
   "    _allocs[id] = \x7b\"label\": label, \"size\": int(size)\x7d\n".data,
   "    _events.append(\x7b\"time\": _time[0], \"action\": \"alloc\", \"id\": id, \"size\": int(size), \"label\": label\x7d)\n".data,
   "    return id\n".data,
   "\n".data,
   "def free(id: str) -> None:\n".data,
   "    if not isinstance(id, str):\n".data,
   "        raise TypeError(\"free: id must be a string returned by alloc()\")\n".data,
   "    if len(_events) >= _MAX_EVENTS:\n".data,
   "        raise RuntimeError(\"Event limit reached (10,000). Reduce allocations.\")\n".data,
   "    _time[0] += 1\n".data,
   "    if id not in _allocs:\n".data,
   "        _events.append(\x7b\"time\": _time[0], \"action\": \"double_free\", \"id\": id\x7d)\n".data,
   "        return\n".data,
   "    del _allocs[id]\n".data,
   "    _events.append(\x7b\"time\": _time[0], \"action\": \"free\", \"id\": id\x7d)\n".data,
   "\n".data,
   "def _run_user_code():\n".data,
   "    a = 1\n    b = 2".data,
   "\n".data,
   "\n".data,
   "_run_user_code()\n".data,
   "\n".data,
   "if _allocs:\n".data,
   "    _time[0] += 1\n".data,
   "    _events.append(\x7b\"time\": _time[0], \"action\": \"end\"\x7d)\n".data,
   "\n".data,
   "_json.dumps(\x7b\"events\": _events, \"stdout\": _stdout_capture.getvalue(), \"stderr\": _stderr_capture.getvalue()\x7d)\n".data]

theorem pyChunks_join :
    (instrumentPython "a = 1\nb = 2").data = joinChunks pyChunks := by
  have hmid : String.intercalate "\n"
      ((jsSplitLines "a = 1\nb = 2").map (fun line => "    " ++ line)) =
      "    a = 1\n    b = 2" := by decide
  rw [instrumentPython, hmid]
  simp only [pyPrefix, pySuffix, pyChunks, joinChunks, List.foldr_cons,
    List.foldr_nil, String.data_append, List.append_assoc, List.append_nil]

/-- C7 counterexample: the two-line source `"a = 1\nb = 2"` is not a
contiguous substring of the Python transformer's output — its second line
is prefixed by four spaces. -/
theorem c7_counterexample :
    ¬ strContains "a = 1\nb = 2" (instrumentPython "a = 1\nb = 2") := by
  show ¬ ("a = 1\nb = 2").data <:+: (instrumentPython "a = 1\nb = 2").data
  rw [pyChunks_join]
  have h := chunkedNoInfix_sound ("a = 1\nb = 2").data pyChunks [] (by decide)
  rwa [List.nil_append] at h


/-- C7 witness: the determinism part applied at a concrete source, and
verbatim containment in the JS output at the same source. -/
theorem c7_witness :
    instrumentJs "x = alloc(\x27b\x27, 1)" = instrumentJs "x = alloc(\x27b\x27, 1)" ∧
    strContains "x = alloc(\x27b\x27, 1)" (instrumentJs "x = alloc(\x27b\x27, 1)") :=
  ⟨(transformer_determinism_and_embedding.1 _ _ rfl).1,
    transformer_determinism_and_embedding.2.2.1 _⟩

/-! ## Run Controller (`useSandbox`)

State machine of the `useSandbox` hook: the observable `SandboxState`
plus the two refs (`workerRef`, `timeoutRef`) abstracted as Booleans.
Worker messages are delivered only while a worker is attached
(`worker.terminate()` detaches the handler), and the timeout fires only
while armed. -/

inductive SandboxStatus : Type where
  | idle : SandboxStatus
  | running : SandboxStatus
  | loadingPyodide : SandboxStatus
  | success : SandboxStatus
  | error : SandboxStatus
  | timeout : SandboxStatus
deriving DecidableEq

structure SandboxState : Type where
  status : SandboxStatus
  events : List MemoryEvent
  stdout : String
  stderr : String
  errorMsg : Option String
deriving DecidableEq

def INITIAL_STATE : SandboxState :=
  { status := .idle, events := [], stdout := "", stderr := "", errorMsg := none }

structure Controller : Type where
  state : SandboxState
  workerActive : Bool
  timeoutArmed : Bool
deriving DecidableEq

def initialController : Controller :=
  { state := INITIAL_STATE, workerActive := false, timeoutArmed := false }

/-- `cleanup`: clear the timeout and terminate/detach the worker. -/
def cleanup (c : Controller) : Controller :=
  { c with workerActive := false, timeoutArmed := false }

def noCodeMsg : String := "No code to run."

def timeoutMsg : String :=
  "Execution timed out after 10 seconds. Check for infinite loops."

def emptyAdvisoryMsg : String :=
  "Code ran but produced no memory events. Use alloc(label, size) to allocate."

/-- `run(language, code)`: kill any previous worker; empty code short-
circuits to `error`; otherwise reset state to running and spin up a fresh
worker with an armed timeout.  (Emptiness of the trimmed code is taken as
a parameter; trimming itself is not modelled.) -/
def runCtrl (c : Controller) (codeIsBlank : Bool) : Controller :=
  let c₀ := cleanup c
  if codeIsBlank then
    { c₀ with state :=
        { INITIAL_STATE with status := .error, errorMsg := some noCodeMsg } }
  else
    { state := { INITIAL_STATE with status := .running },
      workerActive := true, timeoutArmed := true }

/-- The hard-timeout callback. -/
def onTimeout (c : Controller) : Controller :=
  if c.timeoutArmed then
    { state := { c.state with status := .timeout, errorMsg := some timeoutMsg },
      workerActive := false, timeoutArmed := false }
  else c

/-- A message posted by the sandbox worker. -/
inductive WorkerMsg : Type where
  | status : WorkerMsg
  | result (rawEvents : JsVal) (stdout stderr : String) : WorkerMsg
  | errorOut (error : String) (stdout stderr : String) : WorkerMsg

/-- `worker.onmessage`: `status` flips to the loading state; terminal
messages clear the timeout, set the terminal state and terminate the
worker. -/
def onMessage (c : Controller) (m : WorkerMsg) : Controller :=
  if c.workerActive = false then c
  else
    match m with
    | .status =>
      { c with state := { c.state with status := .loadingPyodide } }
    | .result raw out err =>
      let events := validateEvents raw
      { state := { status := .success, events := events, stdout := out,
                   stderr := err,
                   errorMsg := if events.length = 0 then some emptyAdvisoryMsg
                               else none },
        workerActive := false, timeoutArmed := false }
    | .errorOut msg out err =>
      { state := { status := .error, events := [], stdout := out,
                   stderr := err, errorMsg := some msg },
        workerActive := false, timeoutArmed := false }

/-- `worker.onerror`: cleanup and report a worker fault. -/
def onWorkerError (c : Controller) (msg : String) : Controller :=
  if c.workerActive = false then c
  else
    { state := { status := .error, events := [], stdout := "", stderr := "",
                 errorMsg := some msg },
      workerActive := false, timeoutArmed := false }

/-- `stop()`: cleanup, then drop back to `idle` only from the two active
states. -/
def stop (c : Controller) : Controller :=
  { state := { c.state with status :=
      if c.state.status = .running ∨ c.state.status = .loadingPyodide
      then .idle else c.state.status },
    workerActive := false, timeoutArmed := false }

inductive CtrlInput : Type where
  | run (codeIsBlank : Bool) : CtrlInput
  | msg (m : WorkerMsg) : CtrlInput
  | timeoutFires : CtrlInput
  | workerFault (msg : String) : CtrlInput
  | stopBtn : CtrlInput

def ctrlStep (c : Controller) : CtrlInput → Controller
  | .run blank => runCtrl c blank
  | .msg m => onMessage c m
  | .timeoutFires => onTimeout c
  | .workerFault e => onWorkerError c e
  | .stopBtn => stop c

/-- The controller after a sequence of inputs from the initial state. -/
def ctrlRun (inputs : List CtrlInput) : Controller :=
  inputs.foldl ctrlStep initialController

/-- Invariant: while a worker is attached, and in each of the three
non-terminal statuses, the observable buffers are clear. -/
def CInv (c : Controller) : Prop :=
  (c.workerActive = true →
    c.state.events = [] ∧ c.state.stdout = "" ∧ c.state.stderr = "") ∧
  ((c.state.status = .idle ∨ c.state.status = .running ∨
      c.state.status = .loadingPyodide) →
    c.state.events = [] ∧ c.state.stdout = "" ∧ c.state.stderr = "")

theorem cinv_initial : CInv initialController :=
  ⟨fun _ => ⟨rfl, rfl, rfl⟩, fun _ => ⟨rfl, rfl, rfl⟩⟩

theorem cinv_step {c : Controller} (hc : CInv c) (i : CtrlInput) :
    CInv (ctrlStep c i) := by
  obtain ⟨h1, h2⟩ := hc
  cases i with
  | run blank =>
    cases blank with
    | true => exact ⟨fun h => (by cases h), fun _ => ⟨rfl, rfl, rfl⟩⟩
    | false => exact ⟨fun _ => ⟨rfl, rfl, rfl⟩, fun _ => ⟨rfl, rfl, rfl⟩⟩
  | msg m =>
    show CInv (onMessage c m)
    unfold onMessage
    by_cases hw : c.workerActive = false
    · rw [if_pos hw]; exact ⟨h1, h2⟩
    · rw [if_neg hw]
      have hbuf := h1 (by revert hw; cases c.workerActive <;> simp)
      cases m with
      | status =>
        exact ⟨fun _ => hbuf, fun _ => hbuf⟩
      | result raw out err =>
        refine ⟨fun h => (by cases h), fun h => ?_⟩
        rcases h with h | h | h <;> cases h
      | errorOut msg out err =>
        refine ⟨fun h => (by cases h), fun h => ?_⟩
        rcases h with h | h | h <;> cases h
  | timeoutFires =>
    show CInv (onTimeout c)
    unfold onTimeout
    by_cases ht : c.timeoutArmed
    · rw [if_pos ht]
      refine ⟨fun h => (by cases h), fun h => ?_⟩
      rcases h with h | h | h <;> cases h
    · rw [if_neg ht]; exact ⟨h1, h2⟩
  | workerFault e =>
    show CInv (onWorkerError c e)
    unfold onWorkerError
    by_cases hw : c.workerActive = false
    · rw [if_pos hw]; exact ⟨h1, h2⟩
    · rw [if_neg hw]
      refine ⟨fun h => (by cases h), fun h => ?_⟩
      rcases h with h | h | h <;> cases h
  | stopBtn =>
    show CInv (stop c)
    unfold stop
    refine ⟨fun h => (by cases h), fun h => ?_⟩
    by_cases hs : c.state.status = .running ∨ c.state.status = .loadingPyodide
    · exact h2 (Or.inr hs)
    · rcases h with h | h | h <;>
        simp only [if_neg hs] at h <;>
        exact h2 (by simp [h])

theorem cinv_run (inputs : List CtrlInput) : CInv (ctrlRun inputs) := by
  suffices h : ∀ (l : List CtrlInput) (c : Controller), CInv c →
      CInv (l.foldl ctrlStep c) by
    exact h inputs initialController cinv_initial
  intro l
  induction l with
  | nil => intro c hc; exact hc
  | cons i rest ih =>
    intro c hc
    exact ih (ctrlStep c i) (cinv_step hc i)

/-- C8: `stop()` from `running` or the awaiting-runtime state cancels the
timeout, disposes the worker and lands in `idle`; and in every reachable
`idle` state the observable events, stdout and stderr are clear. -/
theorem stop_and_idle_contract :
    (∀ c : Controller,
      c.state.status = .running ∨ c.state.status = .loadingPyodide →
      (stop c).state.status = .idle ∧ (stop c).workerActive = false ∧
      (stop c).timeoutArmed = false) ∧
    (∀ inputs : List CtrlInput, (ctrlRun inputs).state.status = .idle →
      (ctrlRun inputs).state.events = [] ∧
      (ctrlRun inputs).state.stdout = "" ∧
      (ctrlRun inputs).state.stderr = "") := by
  constructor
  · intro c hc
    refine ⟨?_, rfl, rfl⟩
    show (if c.state.status = .running ∨ c.state.status = .loadingPyodide
        then SandboxStatus.idle else c.state.status) = .idle
    rw [if_pos hc]
  · intro inputs hidle
    exact (cinv_run inputs).2 (Or.inl hidle)

/-- C8 witness: starting a run and pressing stop lands in `idle` with
cleared buffers; `stop` from a running controller disposes everything. -/
theorem c8_witness :
    (ctrlRun [CtrlInput.run false, CtrlInput.stopBtn]).state.status = .idle ∧
    (ctrlRun [CtrlInput.run false, CtrlInput.stopBtn]).state.events = [] ∧
    (ctrlRun [CtrlInput.run false, CtrlInput.stopBtn]).state.stdout = "" ∧
    (ctrlRun [CtrlInput.run false, CtrlInput.stopBtn]).state.stderr = "" ∧
    (stop (ctrlRun [CtrlInput.run false])).state.status = .idle :=
  have hidle : (ctrlRun [CtrlInput.run false, CtrlInput.stopBtn]).state.status
      = .idle := rfl
  have h := stop_and_idle_contract.2 [CtrlInput.run false, CtrlInput.stopBtn]
    hidle
  ⟨hidle, h.1, h.2.1, h.2.2,
    (stop_and_idle_contract.1 (ctrlRun [CtrlInput.run false])
      (Or.inl rfl)).1⟩

/-! ## The terminal-error path (C6)

What each hop of the JS error pipeline forwards: the instrumented blob
worker's catch handler posts the message together with the joined
captured buffers; `runJs` rejects its promise with only the message; the
sandbox worker's catch fabricates empty buffers around that message; the
controller then copies those (empty) buffers into the observable state. -/

structure WorkerErrorMessage : Type where
  error : String
  stdout : String
  stderr : String
deriving DecidableEq

/-- Catch handler generated by `instrumentJs` (the `catch (err)` block):
posts the error message plus `__stdout.join('\n')` / `__stderr.join('\n')`. -/
def jsWorkerErrorPost (stdoutBuf stderrBuf : List String) (msg : String) :
    WorkerErrorMessage :=
  { error := msg,
    stdout := String.intercalate "\n" stdoutBuf,
    stderr := String.intercalate "\n" stderrBuf }

/-- `runJs`'s `worker.onmessage` on `msg.type === 'error'`
(`jsRuntime.ts`): `reject(new Error(msg.error))` — only the message
survives the hop. -/
def runJsRejectReason (m : WorkerErrorMessage) : String :=
  m.error

/-- The sandbox worker's catch (`sandboxWorker.ts`): posts
`{type:'error', error: message, stdout: '', stderr: ''}`. -/
def sandboxWorkerCatch (message : String) : WorkerErrorMessage :=
  { error := message, stdout := "", stderr := "" }

/-- The error message the controller finally receives for a JS run whose
user code captured `stdoutBuf` / `stderrBuf` before throwing `msg`. -/
def deliveredOnJsError (stdoutBuf stderrBuf : List String) (msg : String) :
    WorkerErrorMessage :=
  sandboxWorkerCatch (runJsRejectReason (jsWorkerErrorPost stdoutBuf stderrBuf msg))

/-- C6 (code bug): the instrumented worker posts the captured buffers with
its error, but `runJs` rejects with only the message and the sandbox
worker substitutes empty buffers, so every terminal JS error reaches the
caller with empty stdout/stderr — here evaluated at a run that printed
"hi" before failing, where "hi" had been captured. -/
theorem error_outcome_loses_captured_output :
    (jsWorkerErrorPost ["hi"] []
        "free: id must be a string returned by alloc()").stdout = "hi" ∧
    deliveredOnJsError ["hi"] [] "free: id must be a string returned by alloc()" =
      { error := "free: id must be a string returned by alloc()",
        stdout := "", stderr := "" } ∧
    (deliveredOnJsError ["hi"] []
        "free: id must be a string returned by alloc()").stdout ≠
      (jsWorkerErrorPost ["hi"] []
        "free: id must be a string returned by alloc()").stdout ∧
    (∀ (out err : List String) (msg : String),
      (deliveredOnJsError out err msg).stdout = "" ∧
      (deliveredOnJsError out err msg).stderr = "" ∧
      (deliveredOnJsError out err msg).error = msg) := by
  refine ⟨rfl, rfl, by decide, fun out err msg => ⟨rfl, rfl, rfl⟩⟩

/-- C6 witness: the delivered error for a run that printed "hi" before
failing carries the message but empty buffers. -/
theorem c6_witness :
    (deliveredOnJsError ["hi"] [] "boom").stdout = "" ∧
    (deliveredOnJsError ["hi"] [] "boom").error = "boom" :=
  ⟨(error_outcome_loses_captured_output.2.2.2 ["hi"] [] "boom").1,
    (error_outcome_loses_captured_output.2.2.2 ["hi"] [] "boom").2.2⟩

/-- C10 witness: a concrete unknown action is kept verbatim. -/
theorem c10_witness :
    validateOne (.obj [("time", .num 5), ("action", .str "whatever")]) =
      some { time := 5, action := "whatever" } :=
  validator_keeps_unknown_actions.1 5 "whatever"

end HeapAnalyzer
